import Mathlib

/-!
Verification of the concurrent task-coordination core of the
tbench-agentic-data-pipeline repository, a shallow embedding of
`src/task_manager/task_manager.py`.

The Python coordinator keeps one JSON document (`workflow_type`, a
`metadata` dict and a `tasks` dict keyed by task id).  Python dicts
preserve insertion order, so the `tasks` dict is embedded as an
association list `List (String × Task)`; dict assignment replaces the
value in place for an existing key and appends for a fresh key
(`alistInsert`).  ISO-8601 timestamps are embedded as abstract instants
(`Int`, seconds); every call of `datetime.now()` inside one operation is
mapped to the single `now` argument of that operation.  The random
suffix `uuid.uuid4().hex[:8]` of `create_task` is passed in as an
explicit oracle argument.  File locking and the temp-file/atomic-rename
write are serialisation and durability mechanics; the embedding models
the persisted state that results from each linearised operation.
-/

set_option autoImplicit false

namespace TaskManagerModel

/-- The five task statuses of the Python `TaskStatus` enum. -/
inductive TaskStatus where
  | pending
  | in_progress
  | completed
  | failed
  | cancelled
deriving DecidableEq, Repr

/-- Terminal statuses: completed, failed, cancelled. -/
def TaskStatus.isTerminal : TaskStatus → Bool
  | .completed => true
  | .failed => true
  | .cancelled => true
  | _ => false

/-- Lookup in an association list embedding of a Python dict
(`d[k]` / `k in d`): the value at the first matching key. -/
def alistLookup {α β : Type} [DecidableEq α] (k : α) : List (α × β) → Option β
  | [] => none
  | (k', v) :: rest => if k' = k then some v else alistLookup k rest

/-- Assignment `d[k] = v` on a Python dict: replaces the value of an
existing key in place (keeping its position), appends a fresh key. -/
def alistInsert {α β : Type} [DecidableEq α] (l : List (α × β)) (k : α) (v : β) :
    List (α × β) :=
  match l with
  | [] => [(k, v)]
  | (k', v') :: rest =>
      if k' = k then (k, v) :: rest else (k', v') :: alistInsert rest k v

/-- Python `d.update(u)`: assign every key/value pair of `u` into `d`
in order. -/
def dictUpdate {α β : Type} [DecidableEq α] (d u : List (α × β)) : List (α × β) :=
  u.foldl (fun acc p => alistInsert acc p.1 p.2) d

/-- Task payload dicts (`data`, `result_data`, metadata): string keyed
maps with opaque printable values, embedded as association lists. -/
abbrev StrMap := List (String × String)

/-- One task record of the persisted `tasks` dict.  `create_task` writes
`type`, `status`, `parent_id`, `locked_by`, `locked_at`, `completed_at`,
`created_at` and `data`; the keys `task_started_at` and `updated_at` are
added later by `get_next_task` / `update_task_data` and may be absent,
hence `Option` with `none` for an absent key. -/
structure Task where
  type : String
  status : TaskStatus
  parent_id : Option String
  locked_by : Option String
  locked_at : Option Int
  completed_at : Option Int
  created_at : Int
  task_started_at : Option Int := none
  updated_at : Option Int := none
  data : StrMap
deriving DecidableEq, Repr

/-- The whole persisted state document. -/
structure TMState where
  workflow_type : String
  metadata : StrMap
  tasks : List (String × Task)
deriving DecidableEq, Repr

/-- The state written by `_initialize_state`. -/
def initialState (now : Int) : TMState :=
  { workflow_type := "generic"
    metadata := [("initialized_at", toString now), ("last_updated", toString now)]
    tasks := [] }

/-- Effect of `_save_state` on the persisted document: stamps
`metadata["last_updated"]` and commits the in-memory state (the
temp-file write plus atomic rename). -/
def saveState (now : Int) (s : TMState) : TMState :=
  { s with metadata := alistInsert s.metadata "last_updated" (toString now) }

/-- The timeout test of `_check_timeouts`:
`(current_time - locked_time).total_seconds() / 3600 > task_timeout_hours`.
The elapsed seconds are compared against the hour window in the
denominator-cleared form `3600 * hours < seconds`, which is exactly the
same predicate (see `hoursElapsedGt_iff_div`). -/
def hoursElapsedGt (task_timeout_hours now locked_at : Int) : Bool :=
  decide (3600 * task_timeout_hours < now - locked_at)

/-- Guard of `_check_timeouts` for one task: status is `in_progress`,
`locked_at` is set, and the elapsed hours exceed the timeout window. -/
def timedOut (task_timeout_hours now : Int) (t : Task) : Bool :=
  if t.status = TaskStatus.in_progress then
    match t.locked_at with
    | some locked_at => hoursElapsedGt task_timeout_hours now locked_at
    | none => false
  else false

/-- Auto-release of one timed-out task: back to `pending`, lock fields
cleared, and `task_started_at` deleted (`del task["task_started_at"]`). -/
def releaseTimedOut (t : Task) : Task :=
  { t with status := TaskStatus.pending, locked_by := none, locked_at := none,
           task_started_at := none }

/-- `_check_timeouts`: releases every timed-out task in place and
returns the updated tasks dict together with the released ids. -/
def checkTimeouts (task_timeout_hours now : Int) (tasks : List (String × Task)) :
    List (String × Task) × List String :=
  (tasks.map (fun p => if timedOut task_timeout_hours now p.2
                       then (p.1, releaseTimedOut p.2) else p),
   (tasks.filter (fun p => timedOut task_timeout_hours now p.2)).map (fun p => p.1))

/-- `create_task`: generates the id `f"{task_type}_{uuid4().hex[:8]}"`
(the random 8-hex-character suffix is the oracle argument), stores a
fresh pending task and saves.  Returns the new id with the new state. -/
def createTask (now : Int) (suffix task_type : String) (data : StrMap)
    (parent_id : Option String) (s : TMState) : String × TMState :=
  let task_id := task_type ++ "_" ++ suffix
  let t : Task :=
    { type := task_type
      status := TaskStatus.pending
      parent_id := parent_id
      locked_by := none
      locked_at := none
      completed_at := none
      created_at := now
      data := data }
  (task_id, saveState now { s with tasks := alistInsert s.tasks task_id t })

/-- The type filter of `get_next_task`:
`if task_types and task["type"] not in task_types: continue`.
A `None` or empty list is falsy in Python, so it excludes nothing. -/
def typeExcluded (task_types : Option (List String)) (ty : String) : Bool :=
  match task_types with
  | none => false
  | some types => if types = [] then false else decide (ty ∉ types)

/-- A task the claim scan of `get_next_task` will take: pending and not
excluded by the type filter. -/
def claimable (task_types : Option (List String)) (t : Task) : Prop :=
  t.status = TaskStatus.pending ∧ typeExcluded task_types t.type = false

instance (task_types : Option (List String)) (t : Task) :
    Decidable (claimable task_types t) := by
  unfold claimable; infer_instance

/-- Assignment of a claimed task to an agent: `in_progress`, lock fields
set, and `task_started_at` assigned (the source assigns it on every
claim). -/
def claimTask (now : Int) (agent_id : String) (t : Task) : Task :=
  { t with status := TaskStatus.in_progress, locked_by := some agent_id,
           locked_at := some now, task_started_at := some now }

/-- The claim scan of `get_next_task`: walk the tasks dict in insertion
order, claim the first claimable task, and return the claimed entry
(the source returns `{"id": task_id, **task}` after mutation) together
with the updated tasks dict; `none` when no task qualifies. -/
def claimFirst (now : Int) (agent_id : String) (task_types : Option (List String)) :
    List (String × Task) → Option ((String × Task) × List (String × Task))
  | [] => none
  | (task_id, t) :: rest =>
      if claimable task_types t then
        let t' := claimTask now agent_id t
        some ((task_id, t'), (task_id, t') :: rest)
      else
        match claimFirst now agent_id task_types rest with
        | none => none
        | some (r, rest') => some (r, (task_id, t) :: rest')

/-- State of the store after the timeout-reclamation phase of
`get_next_task`: `_check_timeouts` runs, and the state is saved exactly
when some task was released (`if released: self._save_state(state)`). -/
def afterTimeoutPhase (task_timeout_hours now : Int) (s : TMState) : TMState :=
  let checked := checkTimeouts task_timeout_hours now s.tasks
  if checked.2 = [] then { s with tasks := checked.1 }
  else saveState now { s with tasks := checked.1 }

/-- `get_next_task`: timeout reclamation first, then the claim scan;
saves and returns the claimed task with its id, or `None`. -/
def getNextTask (task_timeout_hours now : Int) (agent_id : String)
    (task_types : Option (List String)) (s : TMState) :
    Option (String × Task) × TMState :=
  let s2 := afterTimeoutPhase task_timeout_hours now s
  match claimFirst now agent_id task_types s2.tasks with
  | none => (none, s2)
  | some (r, tasks') => (some r, saveState now { s2 with tasks := tasks' })

/-- `complete_task`: fails (False, state untouched) when the id is
absent or `locked_by` differs from the calling agent; otherwise writes
the given final status, stamps `completed_at`, clears the lock fields,
merges `result_data` when truthy (non-`None` and non-empty) and saves. -/
def completeTask (now : Int) (task_id agent_id : String) (status : TaskStatus)
    (result_data : Option StrMap) (s : TMState) : Bool × TMState :=
  match alistLookup task_id s.tasks with
  | none => (false, s)
  | some t =>
      if t.locked_by ≠ some agent_id then (false, s)
      else
        let newData :=
          match result_data with
          | none => t.data
          | some rd => if rd = [] then t.data else dictUpdate t.data rd
        let t' := { t with status := status, completed_at := some now,
                           locked_by := none, locked_at := none, data := newData }
        (true, saveState now { s with tasks := alistInsert s.tasks task_id t' })

/-- `release_task`: same guard as `complete_task`; on success the task
returns to `pending` with lock fields cleared, `task_started_at` kept. -/
def releaseTask (now : Int) (task_id agent_id : String) (s : TMState) :
    Bool × TMState :=
  match alistLookup task_id s.tasks with
  | none => (false, s)
  | some t =>
      if t.locked_by ≠ some agent_id then (false, s)
      else
        let t' := { t with status := TaskStatus.pending,
                           locked_by := none, locked_at := none }
        (true, saveState now { s with tasks := alistInsert s.tasks task_id t' })

/-- `update_task_data`: fails only when the id is absent; otherwise
merges `data` into the task's data, stamps `updated_at` on the task and
saves. -/
def updateTaskData (now : Int) (task_id : String) (data : StrMap) (s : TMState) :
    Bool × TMState :=
  match alistLookup task_id s.tasks with
  | none => (false, s)
  | some t =>
      let t' := { t with data := dictUpdate t.data data, updated_at := some now }
      (true, saveState now { s with tasks := alistInsert s.tasks task_id t' })

/-- `update_workflow_metadata`: merges into the metadata dict and saves. -/
def updateWorkflowMetadata (now : Int) (metadata : StrMap) (s : TMState) : TMState :=
  saveState now { s with metadata := dictUpdate s.metadata metadata }

/-- One coordinator call, with its clock instant and, for `create`, the
random id suffix, made explicit. -/
inductive Op where
  | create (now : Int) (suffix task_type : String) (data : StrMap)
      (parent_id : Option String)
  | getNext (now : Int) (agent_id : String) (task_types : Option (List String))
  | complete (now : Int) (task_id agent_id : String) (status : TaskStatus)
      (result_data : Option StrMap)
  | release (now : Int) (task_id agent_id : String)
  | updateData (now : Int) (task_id : String) (data : StrMap)
  | updateMeta (now : Int) (metadata : StrMap)

/-- State transformer of one coordinator call (return values dropped). -/
def applyOp (task_timeout_hours : Int) (op : Op) (s : TMState) : TMState :=
  match op with
  | .create now suffix task_type data parent_id =>
      (createTask now suffix task_type data parent_id s).2
  | .getNext now agent_id task_types =>
      (getNextTask task_timeout_hours now agent_id task_types s).2
  | .complete now task_id agent_id status result_data =>
      (completeTask now task_id agent_id status result_data s).2
  | .release now task_id agent_id => (releaseTask now task_id agent_id s).2
  | .updateData now task_id data => (updateTaskData now task_id data s).2
  | .updateMeta now metadata => (updateWorkflowMetadata now metadata s)

/-- States reachable from a fresh store by calls satisfying `P`. -/
inductive ReachableVia (task_timeout_hours : Int) (P : Op → Prop) : TMState → Prop where
  | init (t0 : Int) : ReachableVia task_timeout_hours P (initialState t0)
  | step {s : TMState} (op : Op) (hop : P op)
      (hs : ReachableVia task_timeout_hours P s) :
      ReachableVia task_timeout_hours P (applyOp task_timeout_hours op s)

/-- No restriction on calls. -/
def anyOp : Op → Prop := fun _ => True

/-- Calls in which `complete_task` never receives the `in_progress`
status (in particular any run passing a terminal status, as its
documented contract requires). -/
def completeStatusOK : Op → Prop
  | .complete _ _ _ status _ => status ≠ TaskStatus.in_progress
  | _ => True

/-- The spec's lock invariant: lock fields are non-empty exactly on
`in_progress` tasks. -/
def lockIffInProgress (s : TMState) : Prop :=
  ∀ p ∈ s.tasks, ((p : String × Task).2.locked_by ≠ none ∧ p.2.locked_at ≠ none)
    ↔ p.2.status = TaskStatus.in_progress

instance (s : TMState) : Decidable (lockIffInProgress s) := by
  unfold lockIffInProgress; infer_instance

/-- The weaker half of the lock invariant that holds with no restriction
on calls: a task holding a lock field is `in_progress`. -/
def lockedImpliesInProgress (s : TMState) : Prop :=
  ∀ p ∈ s.tasks, ((p : String × Task).2.locked_by ≠ none ∨ p.2.locked_at ≠ none)
    → p.2.status = TaskStatus.in_progress

/-- Freshness of the id a `create` call generates: the random suffix
produced by `uuid.uuid4().hex[:8]` does not collide with an existing id
(the source treats the collision probability as negligible and does not
check it). -/
def opFresh (s : TMState) : Op → Prop
  | .create _ suffix task_type _ _ =>
      alistLookup (task_type ++ "_" ++ suffix) s.tasks = none
  | _ => True

/-- Concrete scenario: one task created at time 0 and claimed by
agent-1 at time 5 (so its `task_started_at` reads 5). -/
def c1AfterFirstClaim : TMState :=
  (getNextTask 24 5 "agent-1" none
    (createTask 0 "ab12cd34" "seed_dp" [] none (initialState 0)).2).2

/-- The same task released back to pending by agent-1 at time 6. -/
def c1AfterRelease : TMState :=
  (releaseTask 6 "seed_dp_ab12cd34" "agent-1" c1AfterFirstClaim).2

/-- The same task re-claimed by agent-2 at time 7200. -/
def c1AfterReclaim : TMState :=
  (getNextTask 24 7200 "agent-2" none c1AfterRelease).2

/-- Concrete trace: create, claim, then a `complete_task` call whose
status argument is `in_progress`. -/
def c2Trace : TMState :=
  applyOp 24 (Op.complete 2 "seed_dp_ab12cd34" "agent-1" TaskStatus.in_progress none)
    (applyOp 24 (Op.getNext 1 "agent-1" none)
      (applyOp 24 (Op.create 0 "ab12cd34" "seed_dp" [] none) (initialState 0)))

/-- The task record held by `completedTrace` under id
`seed_dp_ab12cd34`. -/
def completedTask : Task :=
  { type := "seed_dp"
    status := TaskStatus.completed
    parent_id := none
    locked_by := none
    locked_at := none
    completed_at := some 2
    created_at := 0
    task_started_at := some 1
    data := [] }

/-- Concrete trace: create, claim, then a normal completion. -/
def completedTrace : TMState :=
  applyOp 24 (Op.complete 2 "seed_dp_ab12cd34" "agent-1" TaskStatus.completed none)
    (applyOp 24 (Op.getNext 1 "agent-1" none)
      (applyOp 24 (Op.create 0 "ab12cd34" "seed_dp" [] none) (initialState 0)))

/-- Concrete trace: one task created at time 0 and claimed by agent-1
at time 1. -/
def claimedTrace : TMState :=
  (getNextTask 24 1 "agent-1" none
    (createTask 0 "ab12cd34" "seed_dp" [] none (initialState 0)).2).2

/-- A stale in-progress task locked at time 0. -/
def staleTask : Task :=
  { type := "seed_dp"
    status := TaskStatus.in_progress
    parent_id := none
    locked_by := some "agent-1"
    locked_at := some 0
    completed_at := none
    created_at := 0
    task_started_at := some 0
    data := [] }

/-- A store holding only the stale task. -/
def staleStore : TMState :=
  { workflow_type := "generic"
    metadata := [("initialized_at", "0"), ("last_updated", "0")]
    tasks := [("seed_dp_ab12cd34", staleTask)] }

/-- The pending task record created by
`create_task("seed_dp", {}, None)` at time 0 with suffix ab12cd34. -/
def freshPendingTask : Task :=
  { type := "seed_dp"
    status := TaskStatus.pending
    parent_id := none
    locked_by := none
    locked_at := none
    completed_at := none
    created_at := 0
    data := [] }

/-- Arguments of one `create_task` call, with the clock instant and the
random 8-hex-character suffix drawn for it made explicit. -/
structure CreateCall where
  now : Int
  suffix : String
  task_type : String
  data : StrMap
  parent_id : Option String

/-- Run a sequence of `create_task` calls, collecting the returned ids. -/
def runCreates : List CreateCall → TMState → List String × TMState
  | [], s => ([], s)
  | c :: rest, s =>
      let r := createTask c.now c.suffix c.task_type c.data c.parent_id s
      let r2 := runCreates rest r.2
      (r.1 :: r2.1, r2.2)

/-- Two concrete `create_task` calls with distinct 8-character suffixes. -/
def c8Calls : List CreateCall :=
  [{ now := 0, suffix := "ab12cd34", task_type := "seed_dp", data := [],
     parent_id := none },
   { now := 1, suffix := "ef56ab78", task_type := "review", data := [],
     parent_id := some "seed_dp_ab12cd34" }]

/-- The task record held by `claimedTrace` under id `seed_dp_ab12cd34`. -/
def claimedTask : Task :=
  { type := "seed_dp"
    status := TaskStatus.in_progress
    parent_id := none
    locked_by := some "agent-1"
    locked_at := some 1
    completed_at := none
    created_at := 0
    task_started_at := some 1
    data := [] }

section AListLemmas

/-- The integer form of the timeout comparison agrees with the divided
form the source computes:
`elapsed_seconds / 3600 > task_timeout_hours`. -/
theorem hoursElapsedGt_iff_div (task_timeout_hours now locked_at : Int) :
    hoursElapsedGt task_timeout_hours now locked_at = true ↔
      (task_timeout_hours : ℚ) < ((now - locked_at : Int) : ℚ) / 3600 := by
  unfold hoursElapsedGt
  rw [decide_eq_true_iff, lt_div_iff₀ (by norm_num : (0 : ℚ) < 3600)]
  constructor
  · intro h
    have h2 : ((3600 * task_timeout_hours : Int) : ℚ) < ((now - locked_at : Int) : ℚ) := by
      exact_mod_cast h
    push_cast at h2 ⊢
    linarith
  · intro h
    have h2 : ((3600 * task_timeout_hours : Int) : ℚ) < ((now - locked_at : Int) : ℚ) := by
      push_cast at h ⊢
      linarith
    exact_mod_cast h2

variable {α β : Type} [DecidableEq α]

theorem alistLookup_insert_self (l : List (α × β)) (k : α) (v : β) :
    alistLookup k (alistInsert l k v) = some v := by
  induction l with
  | nil => simp [alistInsert, alistLookup]
  | cons p rest ih =>
      by_cases h : p.1 = k
      · simp [alistInsert, alistLookup, h]
      · simp only [alistInsert, alistLookup]
        rw [if_neg h]
        simp [alistLookup, h, ih]

theorem alistLookup_insert_ne (l : List (α × β)) (k : α) (v : β) (k' : α)
    (h : k' ≠ k) : alistLookup k' (alistInsert l k v) = alistLookup k' l := by
  induction l with
  | nil =>
      simp only [alistInsert, alistLookup]
      rw [if_neg (fun he => h he.symm)]
  | cons p rest ih =>
      by_cases hp : p.1 = k
      · have hne : ¬ (p.1 = k') := fun he => h (he ▸ hp)
        simp only [alistInsert, if_pos hp, alistLookup]
        rw [if_neg (fun he => h he.symm), if_neg hne]
      · simp only [alistInsert, if_neg hp, alistLookup]
        by_cases hq : p.1 = k'
        · simp [hq]
        · simp [hq, ih]

theorem mem_alistInsert {l : List (α × β)} {k : α} {v : β} {p : α × β}
    (h : p ∈ alistInsert l k v) : p = (k, v) ∨ p ∈ l := by
  induction l with
  | nil => simp [alistInsert] at h; simp [h]
  | cons q rest ih =>
      by_cases hq : q.1 = k
      · simp only [alistInsert, if_pos hq, List.mem_cons] at h
        rcases h with h | h
        · exact Or.inl h
        · exact Or.inr (List.mem_cons_of_mem q h)
      · simp only [alistInsert, if_neg hq, List.mem_cons] at h
        rcases h with h | h
        · exact Or.inr (h ▸ List.mem_cons_self q rest)
        · rcases ih h with h' | h'
          · exact Or.inl h'
          · exact Or.inr (List.mem_cons_of_mem q h')

theorem alistLookup_mem {l : List (α × β)} {k : α} {v : β}
    (h : alistLookup k l = some v) : (k, v) ∈ l := by
  induction l with
  | nil => simp [alistLookup] at h
  | cons q rest ih =>
      by_cases hq : q.1 = k
      · simp only [alistLookup, if_pos hq, Option.some_inj] at h
        exact List.mem_cons.mpr (Or.inl (by rw [← hq, ← h]))
      · simp only [alistLookup, if_neg hq] at h
        exact List.mem_cons_of_mem q (ih h)

theorem alistLookup_append (k : α) (l₁ l₂ : List (α × β)) :
    alistLookup k (l₁ ++ l₂) =
      match alistLookup k l₁ with
      | some v => some v
      | none => alistLookup k l₂ := by
  induction l₁ with
  | nil => simp [alistLookup]
  | cons q rest ih =>
      by_cases hq : q.1 = k
      · simp [alistLookup, hq]
      · simp [alistLookup, hq, ih]

theorem alistLookup_append_left {k : α} {l₁ : List (α × β)} {v : β}
    (l₂ : List (α × β)) (h : alistLookup k l₁ = some v) :
    alistLookup k (l₁ ++ l₂) = some v := by
  rw [alistLookup_append, h]

theorem alistLookup_append_right {k : α} {l₁ : List (α × β)}
    (l₂ : List (α × β)) (h : alistLookup k l₁ = none) :
    alistLookup k (l₁ ++ l₂) = alistLookup k l₂ := by
  rw [alistLookup_append, h]

end AListLemmas

section CheckTimeoutLemmas

theorem alistLookup_checkTimeouts (task_timeout_hours now : Int) (task_id : String)
    (tasks : List (String × Task)) :
    alistLookup task_id (checkTimeouts task_timeout_hours now tasks).1 =
      (alistLookup task_id tasks).map
        (fun t => if timedOut task_timeout_hours now t then releaseTimedOut t else t) := by
  induction tasks with
  | nil => simp [checkTimeouts, alistLookup]
  | cons p rest ih =>
      simp only [checkTimeouts, List.map_cons] at ih ⊢
      by_cases ht : timedOut task_timeout_hours now p.2
      · rw [if_pos ht]
        by_cases hk : p.1 = task_id
        · simp [alistLookup, hk, ht]
        · simp only [alistLookup, if_neg hk]
          exact ih
      · rw [if_neg ht]
        by_cases hk : p.1 = task_id
        · simp [alistLookup, hk, ht]
        · simp only [alistLookup, if_neg hk]
          exact ih

theorem mem_checkTimeouts {task_timeout_hours now : Int}
    {tasks : List (String × Task)} {p : String × Task}
    (h : p ∈ (checkTimeouts task_timeout_hours now tasks).1) :
    ∃ q ∈ tasks, p.1 = q.1 ∧ (p.2 = q.2 ∨ p.2 = releaseTimedOut q.2) := by
  simp only [checkTimeouts, List.mem_map] at h
  obtain ⟨q, hq, hpq⟩ := h
  refine ⟨q, hq, ?_⟩
  by_cases ht : timedOut task_timeout_hours now q.2
  · rw [if_pos ht] at hpq
    exact ⟨by rw [← hpq], Or.inr (by rw [← hpq])⟩
  · rw [if_neg ht] at hpq
    exact ⟨by rw [← hpq], Or.inl (by rw [← hpq])⟩

end CheckTimeoutLemmas

section ClaimFirstLemmas

theorem claimFirst_eq_none_iff (now : Int) (agent_id : String)
    (task_types : Option (List String)) (l : List (String × Task)) :
    claimFirst now agent_id task_types l = none ↔
      ∀ p ∈ l, ¬ claimable task_types (p : String × Task).2 := by
  induction l with
  | nil => simp [claimFirst]
  | cons p rest ih =>
      simp only [claimFirst]
      by_cases hc : claimable task_types p.2
      · rw [if_pos hc]
        constructor
        · intro h; exact Option.noConfusion h
        · intro h; exact absurd hc (h p (List.mem_cons_self p rest))
      · rw [if_neg hc]
        cases hrec : claimFirst now agent_id task_types rest with
        | none =>
            constructor
            · intro _ q hq
              rcases List.mem_cons.mp hq with hq | hq
              · rw [hq]; exact hc
              · exact (ih.mp hrec) q hq
            · intro _; rfl
        | some r =>
            obtain ⟨r1, rest'⟩ := r
            constructor
            · intro h; exact Option.noConfusion h
            · intro h
              have hnone : claimFirst now agent_id task_types rest = none :=
                ih.mpr (fun q hq => h q (List.mem_cons_of_mem p hq))
              rw [hnone] at hrec
              exact Option.noConfusion hrec

theorem claimFirst_eq_some {now : Int} {agent_id : String}
    {task_types : Option (List String)} {l l' : List (String × Task)}
    {cid : String} {ct : Task}
    (h : claimFirst now agent_id task_types l = some ((cid, ct), l')) :
    ∃ l₁ t0 l₂, l = l₁ ++ (cid, t0) :: l₂ ∧
      (∀ p ∈ l₁, ¬ claimable task_types (p : String × Task).2) ∧
      claimable task_types t0 ∧ ct = claimTask now agent_id t0 ∧
      l' = l₁ ++ (cid, ct) :: l₂ := by
  induction l generalizing l' with
  | nil => simp [claimFirst] at h
  | cons p rest ih =>
      by_cases hc : claimable task_types p.2
      · simp only [claimFirst, if_pos hc, Option.some_inj, Prod.mk.injEq] at h
        obtain ⟨⟨hcid, hct⟩, hl'⟩ := h
        refine ⟨[], p.2, rest, by simp [← hcid], by simp, hc, hct.symm, ?_⟩
        rw [← hl', hcid, hct]
        rfl
      · simp only [claimFirst, if_neg hc] at h
        cases hrec : claimFirst now agent_id task_types rest with
        | none => rw [hrec] at h; exact Option.noConfusion h
        | some r =>
            obtain ⟨r1, rest'⟩ := r
            rw [hrec] at h
            simp only [Option.some_inj, Prod.mk.injEq] at h
            obtain ⟨hr1, hl'⟩ := h
            obtain ⟨l₁, t0, l₂, hrest, h₁, h0, hct, hrest'⟩ :=
              ih (by rw [hrec, hr1])
            refine ⟨p :: l₁, t0, l₂, by rw [List.cons_append, ← hrest], ?_, h0, hct, ?_⟩
            · intro q hq
              rcases List.mem_cons.mp hq with hq | hq
              · rw [hq]; exact hc
              · exact h₁ q hq
            · rw [← hl', hrest', List.cons_append]

theorem claimFirst_of_split (now : Int) (agent_id : String)
    (task_types : Option (List String)) (l₁ l₂ : List (String × Task))
    (cid : String) (t0 : Task)
    (h₁ : ∀ p ∈ l₁, ¬ claimable task_types (p : String × Task).2)
    (h0 : claimable task_types t0) :
    claimFirst now agent_id task_types (l₁ ++ (cid, t0) :: l₂) =
      some ((cid, claimTask now agent_id t0),
            l₁ ++ (cid, claimTask now agent_id t0) :: l₂) := by
  induction l₁ with
  | nil => simp [claimFirst, h0]
  | cons p rest ih =>
      have hp : ¬ claimable task_types p.2 := h₁ p (List.mem_cons_self p rest)
      have ihr := ih (fun q hq => h₁ q (List.mem_cons_of_mem p hq))
      simp only [List.cons_append, claimFirst, if_neg hp, List.append_eq, ihr]

end ClaimFirstLemmas

section StateLemmas

theorem afterTimeoutPhase_tasks (task_timeout_hours now : Int) (s : TMState) :
    (afterTimeoutPhase task_timeout_hours now s).tasks =
      (checkTimeouts task_timeout_hours now s.tasks).1 := by
  unfold afterTimeoutPhase
  by_cases h : (checkTimeouts task_timeout_hours now s.tasks).2 = [] <;>
    simp [saveState, h]

/-- Shape of every entry of the tasks dict after one operation: it kept
the status and lock fields of some prior entry, or it was written as an
unlocked pending task, or as a freshly claimed locked task, or by a
successful `complete_task` with cleared locks and the status that call
requested. -/
theorem mem_applyOp_tasks {task_timeout_hours : Int} {op : Op} {s : TMState}
    {p : String × Task} (hp : p ∈ (applyOp task_timeout_hours op s).tasks) :
    (∃ q ∈ s.tasks, p.2.status = (q : String × Task).2.status ∧
        p.2.locked_by = q.2.locked_by ∧ p.2.locked_at = q.2.locked_at)
    ∨ (p.2.status = TaskStatus.pending ∧ p.2.locked_by = none ∧ p.2.locked_at = none)
    ∨ (p.2.status = TaskStatus.in_progress ∧ (∃ a, p.2.locked_by = some a) ∧
        (∃ n, p.2.locked_at = some n))
    ∨ (∃ now tid ag st rd, op = Op.complete now tid ag st rd ∧ p.2.status = st ∧
        p.2.locked_by = none ∧ p.2.locked_at = none) := by
  cases op with
  | create now suffix task_type data parent_id =>
      simp only [applyOp, createTask, saveState] at hp
      rcases mem_alistInsert hp with h' | h'
      · rw [h']
        exact Or.inr (Or.inl ⟨rfl, rfl, rfl⟩)
      · exact Or.inl ⟨p, h', rfl, rfl, rfl⟩
  | getNext now agent_id task_types =>
      have hA : ∀ r : String × Task, r ∈ (afterTimeoutPhase task_timeout_hours now s).tasks →
          (∃ q ∈ s.tasks, r.2.status = (q : String × Task).2.status ∧
              r.2.locked_by = q.2.locked_by ∧ r.2.locked_at = q.2.locked_at)
          ∨ (r.2.status = TaskStatus.pending ∧ r.2.locked_by = none ∧
              r.2.locked_at = none) := by
        intro r hr
        rw [afterTimeoutPhase_tasks] at hr
        obtain ⟨q, hq, _, hval⟩ := mem_checkTimeouts hr
        rcases hval with hv | hv
        · exact Or.inl ⟨q, hq, by rw [hv], by rw [hv], by rw [hv]⟩
        · exact Or.inr ⟨by rw [hv]; rfl, by rw [hv]; rfl, by rw [hv]; rfl⟩
      simp only [applyOp, getNextTask] at hp
      cases hclaim : claimFirst now agent_id task_types
          (afterTimeoutPhase task_timeout_hours now s).tasks with
      | none =>
          rw [hclaim] at hp
          rcases hA p hp with h' | h'
          · exact Or.inl h'
          · exact Or.inr (Or.inl h')
      | some r =>
          obtain ⟨⟨cid, ct⟩, tasks'⟩ := r
          rw [hclaim] at hp
          simp only [saveState] at hp
          obtain ⟨l₁, t0, l₂, hrest, _, _, hct, htasks'⟩ := claimFirst_eq_some hclaim
          rw [htasks'] at hp
          rcases List.mem_append.mp hp with h' | h'
          · have : p ∈ (afterTimeoutPhase task_timeout_hours now s).tasks := by
              rw [hrest]
              exact List.mem_append_left _ h'
            rcases hA p this with h'' | h''
            · exact Or.inl h''
            · exact Or.inr (Or.inl h'')
          · rcases List.mem_cons.mp h' with h' | h'
            · rw [h', hct]
              exact Or.inr (Or.inr (Or.inl ⟨rfl, ⟨agent_id, rfl⟩, ⟨now, rfl⟩⟩))
            · have : p ∈ (afterTimeoutPhase task_timeout_hours now s).tasks := by
                rw [hrest]
                exact List.mem_append_right _ (List.mem_cons_of_mem _ h')
              rcases hA p this with h'' | h''
              · exact Or.inl h''
              · exact Or.inr (Or.inl h'')
  | complete now task_id agent_id status result_data =>
      cases hlk : alistLookup task_id s.tasks with
      | none =>
          simp only [applyOp, completeTask, hlk] at hp
          exact Or.inl ⟨p, hp, rfl, rfl, rfl⟩
      | some t =>
          simp only [applyOp, completeTask, hlk] at hp
          by_cases hag : t.locked_by ≠ some agent_id
          · rw [if_pos hag] at hp
            exact Or.inl ⟨p, hp, rfl, rfl, rfl⟩
          · rw [if_neg hag] at hp
            simp only [saveState] at hp
            rcases mem_alistInsert hp with h' | h'
            · rw [h']
              exact Or.inr (Or.inr (Or.inr
                ⟨now, task_id, agent_id, status, result_data, rfl, rfl, rfl, rfl⟩))
            · exact Or.inl ⟨p, h', rfl, rfl, rfl⟩
  | release now task_id agent_id =>
      cases hlk : alistLookup task_id s.tasks with
      | none =>
          simp only [applyOp, releaseTask, hlk] at hp
          exact Or.inl ⟨p, hp, rfl, rfl, rfl⟩
      | some t =>
          simp only [applyOp, releaseTask, hlk] at hp
          by_cases hag : t.locked_by ≠ some agent_id
          · rw [if_pos hag] at hp
            exact Or.inl ⟨p, hp, rfl, rfl, rfl⟩
          · rw [if_neg hag] at hp
            simp only [saveState] at hp
            rcases mem_alistInsert hp with h' | h'
            · rw [h']
              exact Or.inr (Or.inl ⟨rfl, rfl, rfl⟩)
            · exact Or.inl ⟨p, h', rfl, rfl, rfl⟩
  | updateData now task_id data =>
      cases hlk : alistLookup task_id s.tasks with
      | none =>
          simp only [applyOp, updateTaskData, hlk] at hp
          exact Or.inl ⟨p, hp, rfl, rfl, rfl⟩
      | some t =>
          simp only [applyOp, updateTaskData, hlk, saveState] at hp
          rcases mem_alistInsert hp with h' | h'
          · rw [h']
            exact Or.inl ⟨(task_id, t), alistLookup_mem hlk, rfl, rfl, rfl⟩
          · exact Or.inl ⟨p, h', rfl, rfl, rfl⟩
  | updateMeta now metadata =>
      simp only [applyOp, updateWorkflowMetadata, saveState] at hp
      exact Or.inl ⟨p, hp, rfl, rfl, rfl⟩

/-- Every reachable state, under no restriction at all on the calls,
satisfies the weak lock invariant: a task with a lock field set is
`in_progress`. -/
theorem reachable_lockedImpliesInProgress {task_timeout_hours : Int} {s : TMState}
    (h : ReachableVia task_timeout_hours anyOp s) : lockedImpliesInProgress s := by
  induction h with
  | init t0 => intro p hp; simp [initialState] at hp
  | step op hop hs ih =>
      intro p hp
      rcases mem_applyOp_tasks hp with h' | h' | h' | h'
      · obtain ⟨q, hq, hst, hlb, hla⟩ := h'
        intro hlock
        rw [hst]
        exact ih q hq (by rw [← hlb, ← hla]; exact hlock)
      · intro hlock
        rcases hlock with hb | ha
        · exact absurd h'.2.1 hb
        · exact absurd h'.2.2 ha
      · intro _; exact h'.1
      · obtain ⟨_, _, _, _, _, _, _, hlb, hla⟩ := h'
        intro hlock
        rcases hlock with hb | ha
        · exact absurd hlb hb
        · exact absurd hla ha

/-- Lookup after a `get_next_task` call relates to lookup in the
post-reclamation state: either the entry is untouched by the claim scan,
or it was the (pending) claimed entry and now holds the claimed task. -/
theorem getNextTask_lookup {task_timeout_hours now : Int} {agent_id : String}
    {task_types : Option (List String)} {s : TMState} {task_id : String} {t' : Task}
    (ht' : alistLookup task_id
      (getNextTask task_timeout_hours now agent_id task_types s).2.tasks = some t') :
    ∃ t1, alistLookup task_id (afterTimeoutPhase task_timeout_hours now s).tasks = some t1
      ∧ (t' = t1 ∨ (t1.status = TaskStatus.pending ∧ t' = claimTask now agent_id t1)) := by
  simp only [getNextTask] at ht'
  cases hclaim : claimFirst now agent_id task_types
      (afterTimeoutPhase task_timeout_hours now s).tasks with
  | none =>
      rw [hclaim] at ht'
      exact ⟨t', ht', Or.inl rfl⟩
  | some r =>
      obtain ⟨⟨cid, ct⟩, tasks'⟩ := r
      rw [hclaim] at ht'
      simp only [saveState] at ht'
      obtain ⟨l₁, t0, l₂, hrest, _, h0, hct, htasks'⟩ := claimFirst_eq_some hclaim
      rw [htasks'] at ht'
      cases hl1 : alistLookup task_id l₁ with
      | some v =>
          have hv : v = t' := by
            have := alistLookup_append_left ((cid, ct) :: l₂) hl1
            rw [this] at ht'
            exact Option.some_inj.mp ht'
          refine ⟨t', ?_, Or.inl rfl⟩
          rw [hrest]
          rw [hv] at hl1
          exact alistLookup_append_left _ hl1
      | none =>
          rw [alistLookup_append_right _ hl1] at ht'
          simp only [alistLookup] at ht'
          by_cases hcid : cid = task_id
          · rw [if_pos hcid] at ht'
            have hctt : ct = t' := Option.some_inj.mp ht'
            refine ⟨t0, ?_, Or.inr ⟨h0.1, by rw [← hctt, hct]⟩⟩
            rw [hrest, alistLookup_append_right _ hl1]
            simp only [alistLookup]
            rw [if_pos hcid]
          · rw [if_neg hcid] at ht'
            refine ⟨t', ?_, Or.inl rfl⟩
            rw [hrest, alistLookup_append_right _ hl1]
            simp only [alistLookup]
            rw [if_neg hcid]
            exact ht'

/-- A `complete_task` call fails when the task's `locked_by` differs
from the calling agent. -/
theorem completeTask_false_of_no_lock {now : Int} {task_id agent_id : String}
    {status : TaskStatus} {result_data : Option StrMap} {s : TMState} {t : Task}
    (hlk : alistLookup task_id s.tasks = some t)
    (h : t.locked_by ≠ some agent_id) :
    (completeTask now task_id agent_id status result_data s).1 = false := by
  simp only [completeTask, hlk]
  rw [if_pos h]

/-- After a successful `complete_task`, the task's `locked_by` is
cleared in the resulting state. -/
theorem completeTask_snd_lock {now : Int} {task_id agent_id : String}
    {status : TaskStatus} {result_data : Option StrMap} {s : TMState}
    (h : (completeTask now task_id agent_id status result_data s).1 = true) :
    ∃ t', alistLookup task_id
        (completeTask now task_id agent_id status result_data s).2.tasks = some t'
      ∧ t'.locked_by = none := by
  cases hlk : alistLookup task_id s.tasks with
  | none =>
      simp only [completeTask, hlk] at h
      exact Bool.noConfusion h
  | some t =>
      simp only [completeTask, hlk] at h ⊢
      by_cases hag : t.locked_by ≠ some agent_id
      · rw [if_pos hag] at h
        exact Bool.noConfusion h
      · rw [if_neg hag]
        simp only [saveState]
        exact ⟨_, alistLookup_insert_self _ _ _, rfl⟩

/-- Ids generated from equal-length suffixes are injective in the
suffix: `f"{type}_{suffix}"` determines the suffix when the suffix
length is fixed (it is always 8 hex characters in the source). -/
theorem taskId_suffix_inj {t1 s1 t2 s2 : String}
    (h1 : s1.length = 8) (h2 : s2.length = 8)
    (h : t1 ++ "_" ++ s1 = t2 ++ "_" ++ s2) : s1 = s2 := by
  have hd := congrArg String.data h
  rw [String.data_append (t1 ++ "_") s1, String.data_append (t2 ++ "_") s2] at hd
  have hlen : s1.data.length = s2.data.length := by
    cases s1 with
    | mk d1 =>
        cases s2 with
        | mk d2 =>
            simp only [String.length_mk] at h1 h2
            simp [h1, h2]
  have hds := List.append_inj_right' hd hlen
  cases s1 with
  | mk d1 =>
      cases s2 with
      | mk d2 => exact congrArg String.mk hds

/-- The ids returned by a sequence of `create_task` calls are exactly
`f"{task_type}_{suffix}"` of each call, independent of the store. -/
theorem runCreates_ids (calls : List CreateCall) (s : TMState) :
    (runCreates calls s).1 =
      calls.map (fun c => c.task_type ++ "_" ++ c.suffix) := by
  induction calls generalizing s with
  | nil => rfl
  | cons c rest ih => simp [runCreates, createTask, ih]

end StateLemmas

section Claims

/-- C1: the claim says a task claimed at T0, released, and re-claimed at
T1 keeps `task_started_at = T0`.  The code contradicts this (and its own
comments): `release_task` does preserve `task_started_at` (after the
release at time 6 it still reads 5, the first claim time), but the
re-claim in `get_next_task` assigns `task_started_at` unconditionally,
so after the re-claim at time 7200 it reads 7200, not 5, while
`locked_at` also reads 7200. -/
theorem taskStartedAt_overwritten_on_reclaim :
    Option.map (fun t => t.task_started_at)
        (alistLookup "seed_dp_ab12cd34" c1AfterRelease.tasks) = some (some 5)
    ∧ Option.map (fun t => t.task_started_at)
        (alistLookup "seed_dp_ab12cd34" c1AfterReclaim.tasks) = some (some 7200)
    ∧ Option.map (fun t => t.locked_at)
        (alistLookup "seed_dp_ab12cd34" c1AfterReclaim.tasks) = some (some 7200)
    ∧ (7200 : Int) ≠ 5 := by
  refine ⟨?_, ?_, ?_, by decide⟩ <;> decide

/-- C2 counterexample: the claim quantifies over every sequence of
coordinator calls, but `complete_task` accepts any `TaskStatus`;
called with `in_progress` it produces a reachable state holding an
`in_progress` task whose lock fields are empty, so the biconditional
fails. -/
theorem lockInvariant_fails_on_inprogress_complete :
    ReachableVia 24 anyOp c2Trace ∧ ¬ lockIffInProgress c2Trace := by
  constructor
  · exact ReachableVia.step
      (Op.complete 2 "seed_dp_ab12cd34" "agent-1" TaskStatus.in_progress none) trivial
      (ReachableVia.step (Op.getNext 1 "agent-1" none) trivial
        (ReachableVia.step (Op.create 0 "ab12cd34" "seed_dp" [] none) trivial
          (ReachableVia.init 0)))
  · decide

/-- C2 (amended): in every state reachable from the initial empty store
by create, claim, complete, release, update-data and update-metadata
calls in which `complete_task` is never invoked with the `in_progress`
status (as its documented final-status contract requires), every task
has `locked_by` and `locked_at` non-empty if and only if its status is
`in_progress`. -/
theorem lockInvariant_of_reachable {task_timeout_hours : Int} {s : TMState}
    (h : ReachableVia task_timeout_hours completeStatusOK s) : lockIffInProgress s := by
  induction h with
  | init t0 => intro p hp; simp [initialState] at hp
  | step op hop hs ih =>
      intro p hp
      rcases mem_applyOp_tasks hp with h' | h' | h' | h'
      · obtain ⟨q, hq, hst, hlb, hla⟩ := h'
        rw [hst, hlb, hla]
        exact ih q hq
      · rw [h'.1, h'.2.1, h'.2.2]
        constructor
        · intro hlock; exact absurd rfl hlock.1
        · intro hst; cases hst
      · obtain ⟨hst, ⟨a, hlb⟩, ⟨n, hla⟩⟩ := h'
        rw [hst, hlb, hla]
        simp
      · obtain ⟨now, tid, ag, st, rd, hopc, hst, hlb, hla⟩ := h'
        rw [hopc] at hop
        rw [hst, hlb, hla]
        constructor
        · intro hlock; exact absurd rfl hlock.1
        · intro hstat; exact absurd hstat hop

/-- C2 witness: the amended invariant theorem applied to a concrete
reachable state (create, claim, complete with the `completed` status). -/
theorem lockInvariant_of_reachable_witness : lockIffInProgress completedTrace :=
  lockInvariant_of_reachable
    (ReachableVia.step
      (Op.complete 2 "seed_dp_ab12cd34" "agent-1" TaskStatus.completed none)
      (by intro h; cases h)
      (ReachableVia.step (Op.getNext 1 "agent-1" none) trivial
        (ReachableVia.step (Op.create 0 "ab12cd34" "seed_dp" [] none) trivial
          (ReachableVia.init 0))))

/-- C3: for every reachable state and every single coordinator call
(whose generated id, for `create`, is fresh), a task in a terminal
status keeps that status, and a pending task never moves directly to a
terminal status — it must pass through an `in_progress` claim first. -/
theorem terminal_absorbing_and_no_pending_to_terminal
    (task_timeout_hours : Int) (s : TMState) (op : Op)
    (hreach : ReachableVia task_timeout_hours anyOp s)
    (hfresh : opFresh s op)
    (task_id : String) (t t' : Task)
    (ht : alistLookup task_id s.tasks = some t)
    (ht' : alistLookup task_id (applyOp task_timeout_hours op s).tasks = some t') :
    (t.status.isTerminal = true → t'.status = t.status)
    ∧ (t.status = TaskStatus.pending → t'.status.isTerminal = false) := by
  have hInv := reachable_lockedImpliesInProgress hreach
  have base : ∀ t'' : Task, t'' = t →
      (t.status.isTerminal = true → t''.status = t.status)
      ∧ (t.status = TaskStatus.pending → t''.status.isTerminal = false) := by
    intro t'' h
    subst h
    exact ⟨fun _ => rfl, fun hp => by simp [hp, TaskStatus.isTerminal]⟩
  have inprog : t.status = TaskStatus.in_progress →
      (t.status.isTerminal = true → t'.status = t.status)
      ∧ (t.status = TaskStatus.pending → t'.status.isTerminal = false) := by
    intro hin
    constructor
    · intro hterm
      rw [hin] at hterm
      exact absurd hterm (by decide)
    · intro hp
      rw [hin] at hp
      exact absurd hp (by decide)
  cases op with
  | create now suffix task_type data parent_id =>
      have hfresh' : alistLookup (task_type ++ "_" ++ suffix) s.tasks = none := hfresh
      have hne : task_id ≠ task_type ++ "_" ++ suffix := by
        intro he
        rw [← he] at hfresh'
        rw [hfresh'] at ht
        exact Option.noConfusion ht
      simp only [applyOp, createTask, saveState] at ht'
      rw [alistLookup_insert_ne _ _ _ _ hne] at ht'
      rw [ht] at ht'
      exact base t' (Option.some_inj.mp ht').symm
  | getNext now agent_id task_types =>
      simp only [applyOp] at ht'
      obtain ⟨t1, ht1, hcase⟩ := getNextTask_lookup ht'
      rw [afterTimeoutPhase_tasks, alistLookup_checkTimeouts, ht] at ht1
      have ht1' : (if timedOut task_timeout_hours now t then releaseTimedOut t else t)
          = t1 := by simpa using ht1
      by_cases htime : timedOut task_timeout_hours now t
      · have hin : t.status = TaskStatus.in_progress := by
          unfold timedOut at htime
          by_cases h : t.status = TaskStatus.in_progress
          · exact h
          · rw [if_neg h] at htime
            cases htime
        exact inprog hin
      · rw [if_neg htime] at ht1'
        rcases hcase with hc | hc
        · exact base t' (by rw [hc, ← ht1'])
        · rw [← ht1'] at hc
          constructor
          · intro hterm
            rw [hc.1] at hterm
            exact absurd hterm (by decide)
          · intro _
            rw [hc.2]
            rfl
  | complete now tid ag status result_data =>
      cases hlk : alistLookup tid s.tasks with
      | none =>
          simp only [applyOp, completeTask, hlk] at ht'
          rw [ht] at ht'
          exact base t' (Option.some_inj.mp ht').symm
      | some u =>
          simp only [applyOp, completeTask, hlk] at ht'
          by_cases hag : u.locked_by ≠ some ag
          · rw [if_pos hag] at ht'
            rw [ht] at ht'
            exact base t' (Option.some_inj.mp ht').symm
          · rw [if_neg hag] at ht'
            simp only [saveState] at ht'
            have hub : u.locked_by = some ag := not_not.mp hag
            have huin : u.status = TaskStatus.in_progress :=
              hInv (tid, u) (alistLookup_mem hlk)
                (Or.inl (by rw [hub]; exact fun h => Option.noConfusion h))
            by_cases hid : tid = task_id
            · have htu : t = u := by
                rw [← hid] at ht
                rw [hlk] at ht
                exact (Option.some_inj.mp ht).symm
              exact inprog (by rw [htu]; exact huin)
            · have hne : task_id ≠ tid := fun he => hid he.symm
              rw [alistLookup_insert_ne _ _ _ _ hne] at ht'
              rw [ht] at ht'
              exact base t' (Option.some_inj.mp ht').symm
  | release now tid ag =>
      cases hlk : alistLookup tid s.tasks with
      | none =>
          simp only [applyOp, releaseTask, hlk] at ht'
          rw [ht] at ht'
          exact base t' (Option.some_inj.mp ht').symm
      | some u =>
          simp only [applyOp, releaseTask, hlk] at ht'
          by_cases hag : u.locked_by ≠ some ag
          · rw [if_pos hag] at ht'
            rw [ht] at ht'
            exact base t' (Option.some_inj.mp ht').symm
          · rw [if_neg hag] at ht'
            simp only [saveState] at ht'
            have hub : u.locked_by = some ag := not_not.mp hag
            have huin : u.status = TaskStatus.in_progress :=
              hInv (tid, u) (alistLookup_mem hlk)
                (Or.inl (by rw [hub]; exact fun h => Option.noConfusion h))
            by_cases hid : tid = task_id
            · have htu : t = u := by
                rw [← hid] at ht
                rw [hlk] at ht
                exact (Option.some_inj.mp ht).symm
              exact inprog (by rw [htu]; exact huin)
            · have hne : task_id ≠ tid := fun he => hid he.symm
              rw [alistLookup_insert_ne _ _ _ _ hne] at ht'
              rw [ht] at ht'
              exact base t' (Option.some_inj.mp ht').symm
  | updateData now tid data =>
      cases hlk : alistLookup tid s.tasks with
      | none =>
          simp only [applyOp, updateTaskData, hlk] at ht'
          rw [ht] at ht'
          exact base t' (Option.some_inj.mp ht').symm
      | some u =>
          simp only [applyOp, updateTaskData, hlk, saveState] at ht'
          by_cases hid : tid = task_id
          · have htu : t = u := by
              rw [← hid] at ht
              rw [hlk] at ht
              exact (Option.some_inj.mp ht).symm
            rw [hid, alistLookup_insert_self] at ht'
            have hrec := Option.some_inj.mp ht'
            have hst : t'.status = t.status := by
              rw [← hrec, htu]
            exact ⟨fun _ => hst, fun hp => by rw [hst, hp]; rfl⟩
          · have hne : task_id ≠ tid := fun he => hid he.symm
            rw [alistLookup_insert_ne _ _ _ _ hne] at ht'
            rw [ht] at ht'
            exact base t' (Option.some_inj.mp ht').symm
  | updateMeta now metadata =>
      simp only [applyOp, updateWorkflowMetadata, saveState] at ht'
      rw [ht] at ht'
      exact base t' (Option.some_inj.mp ht').symm

/-- C3 witness: the theorem applied to the concrete completed trace and
a `release_task` call, showing the completed task keeps its status. -/
theorem terminal_absorbing_witness :
    (completedTask.status.isTerminal = true →
      completedTask.status = completedTask.status)
    ∧ (completedTask.status = TaskStatus.pending →
      completedTask.status.isTerminal = false) :=
  terminal_absorbing_and_no_pending_to_terminal 24 completedTrace
    (Op.release 3 "seed_dp_ab12cd34" "agent-1")
    (ReachableVia.step
      (Op.complete 2 "seed_dp_ab12cd34" "agent-1" TaskStatus.completed none) trivial
      (ReachableVia.step (Op.getNext 1 "agent-1" none) trivial
        (ReachableVia.step (Op.create 0 "ab12cd34" "seed_dp" [] none) trivial
          (ReachableVia.init 0))))
    trivial "seed_dp_ab12cd34" completedTask completedTask (by decide) (by decide)

/-- C4: whenever `get_next_task` runs at time `now`, every task that is
`in_progress` with a `locked_at` more than `task_timeout_hours` hours
old is transitioned back to `pending` with both lock fields cleared and
`task_started_at` removed, during the reclamation phase that precedes
the claim scan; the released task is claimable by that same call's scan
whenever the type filter admits its type. -/
theorem timedOut_task_reclaimed_before_scan
    (task_timeout_hours now : Int) (task_types : Option (List String))
    (s : TMState) (task_id : String) (t : Task) (locked : Int)
    (ht : alistLookup task_id s.tasks = some t)
    (hin : t.status = TaskStatus.in_progress)
    (hlock : t.locked_at = some locked)
    (hexp : hoursElapsedGt task_timeout_hours now locked = true) :
    alistLookup task_id (afterTimeoutPhase task_timeout_hours now s).tasks
        = some (releaseTimedOut t)
    ∧ (releaseTimedOut t).status = TaskStatus.pending
    ∧ (releaseTimedOut t).locked_by = none
    ∧ (releaseTimedOut t).locked_at = none
    ∧ (releaseTimedOut t).task_started_at = none
    ∧ (typeExcluded task_types t.type = false →
        claimable task_types (releaseTimedOut t)) := by
  have htime : timedOut task_timeout_hours now t = true := by
    unfold timedOut
    rw [if_pos hin, hlock]
    exact hexp
  refine ⟨?_, rfl, rfl, rfl, rfl, fun hty => ⟨rfl, hty⟩⟩
  rw [afterTimeoutPhase_tasks, alistLookup_checkTimeouts, ht]
  simp [htime]

/-- C4 witness: a task locked at time 0, examined at time 360000 (100
hours) with a 24-hour window, is reclaimed and immediately claimable. -/
theorem timedOut_task_reclaimed_witness :
    alistLookup "seed_dp_ab12cd34" (afterTimeoutPhase 24 360000 staleStore).tasks
        = some (releaseTimedOut staleTask)
    ∧ (releaseTimedOut staleTask).status = TaskStatus.pending
    ∧ (releaseTimedOut staleTask).locked_by = none
    ∧ (releaseTimedOut staleTask).locked_at = none
    ∧ (releaseTimedOut staleTask).task_started_at = none
    ∧ (typeExcluded none staleTask.type = false →
        claimable none (releaseTimedOut staleTask)) :=
  timedOut_task_reclaimed_before_scan 24 360000 none staleStore
    "seed_dp_ab12cd34" staleTask 0 (by decide) (by decide) (by decide) (by decide)

/-- C5: after the reclamation phase, `get_next_task` scans the tasks
dict in insertion order and claims the first pending task admitted by
the type filter (setting it `in_progress`, locked by the calling agent,
and returning it with its id); when no post-reclamation task qualifies
it returns nothing and the state is exactly the post-reclamation state,
all statuses untouched by the scan. -/
theorem getNextTask_claims_first_matching
    (task_timeout_hours now : Int) (agent_id : String)
    (task_types : Option (List String)) (s : TMState) :
    ((∀ p ∈ (afterTimeoutPhase task_timeout_hours now s).tasks,
        ¬ claimable task_types (p : String × Task).2) →
      getNextTask task_timeout_hours now agent_id task_types s
        = (none, afterTimeoutPhase task_timeout_hours now s))
    ∧ (∀ (l₁ l₂ : List (String × Task)) (cid : String) (t0 : Task),
        (afterTimeoutPhase task_timeout_hours now s).tasks = l₁ ++ (cid, t0) :: l₂ →
        (∀ p ∈ l₁, ¬ claimable task_types (p : String × Task).2) →
        claimable task_types t0 →
        getNextTask task_timeout_hours now agent_id task_types s
          = (some (cid, claimTask now agent_id t0),
             saveState now { afterTimeoutPhase task_timeout_hours now s with
               tasks := l₁ ++ (cid, claimTask now agent_id t0) :: l₂ })) := by
  constructor
  · intro hnone
    have h := (claimFirst_eq_none_iff now agent_id task_types _).mpr hnone
    simp only [getNextTask, h]
  · intro l₁ l₂ cid t0 hsplit h₁ h0
    have h := claimFirst_of_split now agent_id task_types l₁ l₂ cid t0 h₁ h0
    simp only [getNextTask, hsplit, h]

/-- C5 witness: the empty store yields nothing, and a store holding one
pending task yields exactly that task, claimed. -/
theorem getNextTask_claims_first_matching_witness :
    getNextTask 24 1 "agent-1" none (initialState 0)
        = (none, afterTimeoutPhase 24 1 (initialState 0))
    ∧ getNextTask 24 1 "agent-1" none
        (createTask 0 "ab12cd34" "seed_dp" [] none (initialState 0)).2
        = (some ("seed_dp_ab12cd34", claimTask 1 "agent-1" freshPendingTask),
           saveState 1 { afterTimeoutPhase 24 1
               (createTask 0 "ab12cd34" "seed_dp" [] none (initialState 0)).2 with
             tasks := [] ++ ("seed_dp_ab12cd34", claimTask 1 "agent-1" freshPendingTask)
               :: [] }) :=
  ⟨(getNextTask_claims_first_matching 24 1 "agent-1" none (initialState 0)).1
      (by simp [afterTimeoutPhase, checkTimeouts, initialState]),
   (getNextTask_claims_first_matching 24 1 "agent-1" none
      (createTask 0 "ab12cd34" "seed_dp" [] none (initialState 0)).2).2
      [] [] "seed_dp_ab12cd34" freshPendingTask (by decide) (by simp) (by decide)⟩

/-- C6: `complete_task` returns True exactly when the task exists and
its `locked_by` equals the calling agent; and after a successful
completion, a second `complete_task` for the same task and agent
returns False, because the first call cleared `locked_by`. -/
theorem completeTask_success_iff
    (now now2 : Int) (task_id agent_id : String) (status status2 : TaskStatus)
    (result_data result_data2 : Option StrMap) (s : TMState) :
    ((completeTask now task_id agent_id status result_data s).1 = true ↔
      ∃ t, alistLookup task_id s.tasks = some t ∧ t.locked_by = some agent_id)
    ∧ ((completeTask now task_id agent_id status result_data s).1 = true →
      (completeTask now2 task_id agent_id status2 result_data2
        (completeTask now task_id agent_id status result_data s).2).1 = false) := by
  constructor
  · cases hlk : alistLookup task_id s.tasks with
    | none =>
        simp only [completeTask, hlk]
        constructor
        · intro h
          exact Bool.noConfusion h
        · intro h
          obtain ⟨t, hts, _⟩ := h
          exact Option.noConfusion hts
    | some t =>
        simp only [completeTask, hlk]
        by_cases hag : t.locked_by ≠ some agent_id
        · rw [if_pos hag]
          constructor
          · intro h
            exact Bool.noConfusion h
          · intro h
            obtain ⟨u, hts, hub⟩ := h
            exact absurd hub (Option.some_inj.mp hts ▸ hag)
        · rw [if_neg hag]
          exact ⟨fun _ => ⟨t, rfl, not_not.mp hag⟩, fun _ => rfl⟩
  · intro hsucc
    obtain ⟨t', hlk', hnone⟩ := completeTask_snd_lock hsucc
    exact completeTask_false_of_no_lock hlk'
      (by rw [hnone]; exact fun h => Option.noConfusion h)

/-- C6 witness: completing the claimed demo task succeeds once and the
repeated completion by the same agent fails. -/
theorem completeTask_success_iff_witness :
    (completeTask 3 "seed_dp_ab12cd34" "agent-1" TaskStatus.completed none
      (completeTask 2 "seed_dp_ab12cd34" "agent-1" TaskStatus.completed none
        claimedTrace).2).1 = false :=
  (completeTask_success_iff 2 3 "seed_dp_ab12cd34" "agent-1" TaskStatus.completed
    TaskStatus.completed none none claimedTrace).2 (by decide)

/-- C7: whenever `complete_task`, `release_task` or `update_task_data`
returns False, the persisted state — all tasks and metadata — is left
exactly as it was. -/
theorem failed_mutations_leave_state_unchanged
    (now : Int) (task_id agent_id : String) (status : TaskStatus)
    (result_data : Option StrMap) (data : StrMap) (s : TMState) :
    ((completeTask now task_id agent_id status result_data s).1 = false →
      (completeTask now task_id agent_id status result_data s).2 = s)
    ∧ ((releaseTask now task_id agent_id s).1 = false →
      (releaseTask now task_id agent_id s).2 = s)
    ∧ ((updateTaskData now task_id data s).1 = false →
      (updateTaskData now task_id data s).2 = s) := by
  refine ⟨?_, ?_, ?_⟩
  · cases hlk : alistLookup task_id s.tasks with
    | none =>
        simp only [completeTask, hlk]
        intro _
        trivial
    | some t =>
        simp only [completeTask, hlk]
        by_cases hag : t.locked_by ≠ some agent_id
        · rw [if_pos hag]
          intro _
          rfl
        · rw [if_neg hag]
          intro h
          exact Bool.noConfusion h
  · cases hlk : alistLookup task_id s.tasks with
    | none =>
        simp only [releaseTask, hlk]
        intro _
        trivial
    | some t =>
        simp only [releaseTask, hlk]
        by_cases hag : t.locked_by ≠ some agent_id
        · rw [if_pos hag]
          intro _
          rfl
        · rw [if_neg hag]
          intro h
          exact Bool.noConfusion h
  · cases hlk : alistLookup task_id s.tasks with
    | none =>
        simp only [updateTaskData, hlk]
        intro _
        trivial
    | some t =>
        simp only [updateTaskData, hlk]
        intro h
        exact Bool.noConfusion h

/-- C7 witness: a wrong-agent completion, a wrong-agent release and an
absent-id data update all leave the concrete claimed store untouched. -/
theorem failed_mutations_witness :
    (completeTask 2 "seed_dp_ab12cd34" "agent-2" TaskStatus.completed none
      claimedTrace).2 = claimedTrace
    ∧ (releaseTask 2 "seed_dp_ab12cd34" "agent-2" claimedTrace).2 = claimedTrace
    ∧ (updateTaskData 2 "missing_id" [] claimedTrace).2 = claimedTrace :=
  ⟨(failed_mutations_leave_state_unchanged 2 "seed_dp_ab12cd34" "agent-2"
      TaskStatus.completed none [] claimedTrace).1 (by decide),
   (failed_mutations_leave_state_unchanged 2 "seed_dp_ab12cd34" "agent-2"
      TaskStatus.completed none [] claimedTrace).2.1 (by decide),
   (failed_mutations_leave_state_unchanged 2 "missing_id" "agent-2"
      TaskStatus.completed none [] claimedTrace).2.2 (by decide)⟩

/-- C8: across any sequence of `create_task` calls whose random
8-character suffixes are pairwise distinct (the source relies on the
negligible collision probability of `uuid4().hex[:8]` and does not check
it), every returned task id is unique; and every created task starts
`pending` with empty lock fields and unset `completed_at`, whether or
not its `parent_id` names an existing task. -/
theorem createTask_ids_unique_and_initial_fields :
    (∀ (calls : List CreateCall) (s0 : TMState),
        (∀ c ∈ calls, (c : CreateCall).suffix.length = 8) →
        (calls.map (fun c => c.suffix)).Pairwise (fun a b => a ≠ b) →
        ((runCreates calls s0).1).Pairwise (fun a b => a ≠ b))
    ∧ (∀ (now : Int) (suffix task_type : String) (data : StrMap)
          (parent_id : Option String) (s : TMState),
        alistLookup (createTask now suffix task_type data parent_id s).1
            (createTask now suffix task_type data parent_id s).2.tasks =
          some { type := task_type, status := TaskStatus.pending,
                 parent_id := parent_id, locked_by := none, locked_at := none,
                 completed_at := none, created_at := now,
                 task_started_at := none, updated_at := none, data := data }) := by
  constructor
  · intro calls s0 h8 hdist
    rw [runCreates_ids]
    rw [List.pairwise_map] at hdist ⊢
    refine List.Pairwise.imp_of_mem ?_ hdist
    intro a b ha hb hne heq
    exact hne (taskId_suffix_inj (h8 a ha) (h8 b hb) heq)
  · intro now suffix task_type data parent_id s
    simp only [createTask, saveState]
    exact alistLookup_insert_self _ _ _

/-- C8 witness: the id-uniqueness part applied to two concrete calls
with distinct suffixes. -/
theorem createTask_ids_unique_witness :
    ((runCreates c8Calls (initialState 0)).1).Pairwise (fun a b => a ≠ b) :=
  createTask_ids_unique_and_initial_fields.1 c8Calls (initialState 0)
    (by decide) (by decide)

/-- C9: `get_next_task` with an empty (but present) list of eligible
types behaves exactly like a call with no filter at all — the filter
guard `if task_types and ...` is skipped for a falsy empty list. -/
theorem getNextTask_empty_filter_eq_no_filter
    (task_timeout_hours now : Int) (agent_id : String) (s : TMState) :
    getNextTask task_timeout_hours now agent_id (some []) s
      = getNextTask task_timeout_hours now agent_id none s := by
  have hcf : ∀ l, claimFirst now agent_id (some []) l
      = claimFirst now agent_id none l := by
    intro l
    induction l with
    | nil => rfl
    | cons p rest ih =>
        simp only [claimFirst, ih]
        rfl
  simp only [getNextTask, hcf]

/-- C10: a successful `update_task_data` merges the mapping into the
task's data, stamps `updated_at` on the task and refreshes the
metadata's `last_updated`; the task's every other field, every other
task, every other metadata key and the workflow type are unchanged. -/
theorem updateTaskData_frame
    (now : Int) (task_id : String) (data : StrMap) (s : TMState) (t : Task)
    (ht : alistLookup task_id s.tasks = some t) :
    (updateTaskData now task_id data s).1 = true
    ∧ alistLookup task_id (updateTaskData now task_id data s).2.tasks =
        some { t with data := dictUpdate t.data data, updated_at := some now }
    ∧ (∀ other_id, other_id ≠ task_id →
        alistLookup other_id (updateTaskData now task_id data s).2.tasks =
          alistLookup other_id s.tasks)
    ∧ alistLookup "last_updated" (updateTaskData now task_id data s).2.metadata =
        some (toString now)
    ∧ (∀ k, k ≠ "last_updated" →
        alistLookup k (updateTaskData now task_id data s).2.metadata =
          alistLookup k s.metadata)
    ∧ (updateTaskData now task_id data s).2.workflow_type = s.workflow_type := by
  simp only [updateTaskData, ht, saveState]
  refine ⟨by trivial, ?_, ?_, ?_, ?_, by trivial⟩
  · exact alistLookup_insert_self _ _ _
  · intro other_id hne
    exact alistLookup_insert_ne _ _ _ _ hne
  · exact alistLookup_insert_self _ _ _
  · intro k hk
    exact alistLookup_insert_ne _ _ _ _ hk

/-- C10 witness: updating the data of the concrete claimed task
succeeds, merges the pair, stamps the task and refreshes the metadata
timestamp. -/
theorem updateTaskData_frame_witness :
    (updateTaskData 2 "seed_dp_ab12cd34" [("k", "v")] claimedTrace).1 = true
    ∧ alistLookup "seed_dp_ab12cd34"
        (updateTaskData 2 "seed_dp_ab12cd34" [("k", "v")] claimedTrace).2.tasks =
        some { claimedTask with data := dictUpdate claimedTask.data [("k", "v")], updated_at := some 2 }
    ∧ alistLookup "last_updated"
        (updateTaskData 2 "seed_dp_ab12cd34" [("k", "v")] claimedTrace).2.metadata =
        some (toString (2 : Int)) :=
  ⟨(updateTaskData_frame 2 "seed_dp_ab12cd34" [("k", "v")] claimedTrace claimedTask
      (by decide)).1,
   (updateTaskData_frame 2 "seed_dp_ab12cd34" [("k", "v")] claimedTrace claimedTask
      (by decide)).2.1,
   (updateTaskData_frame 2 "seed_dp_ab12cd34" [("k", "v")] claimedTrace claimedTask
      (by decide)).2.2.2.1⟩

end Claims

end TaskManagerModel
